import Mathlib

/-!
Verification of the text-sanitization utility in
`src/frontend/src/lib/sanitize.ts`.

The TypeScript source is embedded shallowly over `List Char` (one `Char`
per UTF-16 code unit; every input relevant to the claims is ASCII, where
the two notions agree).  Each of the eleven `DANGEROUS_PATTERNS` regexes
is rendered as a deterministic matcher `List Char → Option Nat` giving
the length of the (unique leftmost) match starting at the head of the
list; for each of these regexes the JavaScript backtracking search is
equivalent to the deterministic scan implemented here, because the
character classes involved (`[^<]`, `\w`, `\s`, literals) are pairwise
disjoint at every choice point, so backtracking can never turn a failure
into a success.

JavaScript statefulness is modelled explicitly: the eleven pattern
regexes carry a `g` flag and are shared module-level objects, so
`RegExp.test` starts from the stored `lastIndex` and updates it.  The
model threads the eleven `lastIndex` values as a `List Nat`.
`String.replace` on a global regex always starts from index 0 and leaves
`lastIndex` at 0, so `sanitizeInput` itself is insensitive to the stored
state; its only effect is resetting the state.
-/

/-- Convert a string literal to the `List Char` representation used by the
embedding. -/
def chars (s : String) : List Char := s.data

/-- The ECMAScript whitespace class: `\s`, also the set trimmed by
`String.prototype.trim` (WhiteSpace ∪ LineTerminator). -/
def isJsSpace (c : Char) : Bool :=
  let n := c.toNat
  n == 9 || n == 10 || n == 11 || n == 12 || n == 13 || n == 32 ||
  n == 160 || n == 0x1680 || (0x2000 ≤ n && n ≤ 0x200A) ||
  n == 0x2028 || n == 0x2029 || n == 0x202F || n == 0x205F ||
  n == 0x3000 || n == 0xFEFF

/-- The ECMAScript word-character class `\w` = `[A-Za-z0-9_]`. -/
def isWordChar (c : Char) : Bool :=
  c.isAlpha || c.isDigit || c == '_'

/-- Case-insensitive character comparison, as performed by the `i` flag for
the ASCII ranges that occur in the source patterns. -/
def ciEq (a b : Char) : Bool :=
  a == b || (a.isAlpha && b.isAlpha && a.toLower == b.toLower)

/-- Predicate `ciStarts pat s` holds when `pat` case-insensitively matches an initial
segment of `s`. -/
def ciStarts : List Char → List Char → Bool
  | [], _ => true
  | _ :: _, [] => false
  | p :: ps, c :: cs => ciEq c p && ciStarts ps cs

/-- Predicate `containsCI pat s` holds when `pat` occurs case-insensitively as a
contiguous substring of `s`. -/
def containsCI (pat s : List Char) : Bool :=
  s.tails.any (fun u => ciStarts pat u)

/-- The entity table `HTML_ENTITIES` of the source. -/
def HTML_ENTITIES : List (Char × List Char) :=
  [('&', chars "&amp;"),
   ('<', chars "&lt;"),
   ('>', chars "&gt;"),
   (Char.ofNat 34, chars "&quot;"),
   (Char.ofNat 39, chars "&#x27;"),
   ('/', chars "&#x2F;"),
   (Char.ofNat 96, chars "&#x60;"),
   ('=', chars "&#x3D;")]

/-- The character class of the `escapeHtml` regex: the 8 special characters
`& < > " ' / `(backtick)` =`. -/
def specialChar (c : Char) : Bool :=
  c == '&' || c == '<' || c == '>' || c == Char.ofNat 34 ||
  c == Char.ofNat 39 || c == '/' || c == Char.ofNat 96 || c == '='

/-- One step of `escapeHtml`: the replacement text emitted for a single
character (`HTML_ENTITIES[char] || char` at class matches, the character
itself elsewhere). -/
def escEnt (c : Char) : List Char :=
  if specialChar c then (HTML_ENTITIES.lookup c).getD [c] else [c]

/-- Function `escapeHtml` of the source: a single left-to-right pass replacing each
special character by its entity string; emitted entity text is never
re-scanned. -/
def escapeHtml : List Char → List Char
  | [] => []
  | c :: rest => escEnt c ++ escapeHtml rest

/-- A matcher tries a regex at the head of the list and returns the length
of the match, if any. -/
def Matcher : Type := List Char → Option Nat

/-- Matcher for a case-insensitive literal pattern such as `/javascript:/gi`. -/
def litM (pat : List Char) : Matcher := fun s =>
  if ciStarts pat s then some pat.length else none

/-- Matcher for `/on\w+\s*=/gi`.  The greedy scan is exact: `\w`, `\s` and
`=` are pairwise disjoint, so backtracking never helps. -/
def onM : Matcher := fun s =>
  match s with
  | a :: b :: r =>
    if ciEq a 'o' && ciEq b 'n' then
      let w := r.takeWhile isWordChar
      if w.isEmpty then none
      else
        let r2 := r.drop w.length
        let sp := r2.takeWhile isJsSpace
        let r3 := r2.drop sp.length
        match r3 with
        | c :: _ => if c == '=' then some (2 + w.length + sp.length + 1) else none
        | [] => none
    else none
  | _ => none

/-- Scan of the tag-block body `[^<]*(?:(?!<\/tag>)<[^<]*)*<\/tag>`: advance
over characters until the closing tag appears at the current position
(`[^<]*` stops only at `<`, and at each `<` exactly one of "iterate" /
"close" applies, so the scan is deterministic). `acc` counts consumed
characters. -/
def tagScan (close : List Char) : List Char → Nat → Option Nat
  | u, acc =>
    if ciStarts close u then some (acc + close.length)
    else
      match u with
      | [] => none
      | _ :: v => tagScan close v (acc + 1)

/-- Word-boundary test after the tag name (`\b` with a word character on the
left: satisfied iff the next character is absent or not a word character). -/
def bdryOk : List Char → Bool
  | [] => true
  | c :: _ => !(isWordChar c)

/-- Matcher for a tag-block pattern such as
`/<script\b[^<]*(?:(?!<\/script>)<[^<]*)*<\/script>/gi`, parametrised by
the tag name. -/
def tagM (tag : List Char) : Matcher := fun s =>
  if ciStarts ('<' :: tag) s then
    let rest := s.drop (tag.length + 1)
    if bdryOk rest then
      match tagScan (chars "</" ++ tag ++ chars ">") rest 0 with
      | some k => some (tag.length + 1 + k)
      | none => none
    else none
  else none

/-- Matcher for the residual tag-strip regex `/<[^>]*>/g`. -/
def tagStripM : Matcher := fun s =>
  match s with
  | c :: r =>
    if c == '<' then
      let w := r.takeWhile (fun d => !(d == '>'))
      if w.length < r.length then some (w.length + 2) else none
    else none
  | [] => none

/-- Matcher for the alternation `/javascript:|data:/gi` used by the final
check of `isInputSafe`. -/
def jsDataM : Matcher := fun s =>
  match litM (chars "javascript:") s with
  | some n => some n
  | none => litM (chars "data:") s

/-- The ordered `DANGEROUS_PATTERNS` list of the source. -/
def DANGEROUS_PATTERNS : List Matcher :=
  [tagM (chars "script"),
   tagM (chars "iframe"),
   tagM (chars "object"),
   tagM (chars "embed"),
   tagM (chars "link"),
   tagM (chars "meta"),
   tagM (chars "style"),
   litM (chars "javascript:"),
   litM (chars "vbscript:"),
   litM (chars "data:"),
   onM]

/-- Fuel-indexed engine for `String.replace(re, "")` with a global regex:
scan left to right; at a match, drop the matched slice and continue right
after it; otherwise keep the character.  Each step consumes at least one
character, so fuel `s.length` never runs out. -/
def replaceAllF (m : Matcher) : Nat → List Char → List Char
  | _, [] => []
  | 0, c :: rest => c :: rest
  | fuel + 1, c :: rest =>
    match m (c :: rest) with
    | some (n + 1) => replaceAllF m fuel ((c :: rest).drop (n + 1))
    | some 0 => c :: replaceAllF m fuel rest
    | none => c :: replaceAllF m fuel rest

/-- Semantics of `text.replace(pattern, "")` for a global regex. -/
def replaceAll (m : Matcher) (s : List Char) : List Char :=
  replaceAllF m s.length s

/-- Function `removeDangerousPatterns` of the source: sequential global replacement
of each pattern, in order, each pass running on the previous result. -/
def removeDangerousPatterns (s : List Char) : List Char :=
  DANGEROUS_PATTERNS.foldl (fun acc m => replaceAll m acc) s

/-- Semantics of `String.prototype.trim`: strip ECMAScript whitespace from both ends. -/
def trim (s : List Char) : List Char :=
  ((s.dropWhile isJsSpace).reverse.dropWhile isJsSpace).reverse

/-- Function `sanitizeInput` on a string value: trim, remove dangerous patterns,
escape entities, strip residual tags, clamp to 5000 code units.  The
empty string takes the early `return ""` branch. -/
def sanitizeInputStr (s : List Char) : List Char :=
  if s.isEmpty then []
  else
    let t1 := trim s
    let t2 := removeDangerousPatterns t1
    let t3 := escapeHtml t2
    let t4 := replaceAll tagStripM t3
    if t4.length > 5000 then t4.take 5000 else t4

/-- The JavaScript values distinguished by the guards
`!input || typeof input !== "string"`. -/
inductive JSValue where
  | str : List Char → JSValue
  | nullV : JSValue
  | undefinedV : JSValue
  | boolean : Bool → JSValue
  | number : Int → JSValue
  | object : JSValue

/-- Function `sanitizeInput` on an arbitrary value: every non-string value returns
the empty string (falsy values via `!input`, truthy non-strings via the
`typeof` guard — both branches return `""`). -/
def sanitizeInputJS : JSValue → List Char
  | .str s => sanitizeInputStr s
  | _ => []

/-- The intermediate sanitized text of `sanitizeInput` just before the
length clamp (trim, pattern removal, entity escaping, residual tag strip,
with the same early return for the empty string). -/
def beforeClamp (s : List Char) : List Char :=
  if s.isEmpty then []
  else replaceAll tagStripM (escapeHtml (removeDangerousPatterns (trim s)))

/-- Search for the leftmost match of `m` in the list `t`, which sits at
absolute position `pos` of the subject string; returns the end position of
the match (the new `lastIndex`). -/
def searchFrom (m : Matcher) : List Char → Nat → Option Nat
  | t, pos =>
    match m t with
    | some n => some (pos + n)
    | none =>
      match t with
      | [] => none
      | _ :: v => searchFrom m v (pos + 1)

/-- A regex matches somewhere in `s` (the result of `.test` on a fresh
regex object, or on a global regex whose `lastIndex` is 0). -/
def existsMatch (m : Matcher) (s : List Char) : Bool :=
  (searchFrom m s 0).isSome

/-- Semantics of `RegExp.test` on a shared global regex: search from the stored
`lastIndex`; on success store the match end, on failure store 0
(also when `lastIndex` exceeds the length). -/
def testG (m : Matcher) (li : Nat) (s : List Char) : Bool × Nat :=
  if li ≤ s.length then
    match searchFrom m (s.drop li) li with
    | some e => (true, e)
    | none => (false, 0)
  else (false, 0)

/-- The `for (const pattern of DANGEROUS_PATTERNS)` loop of `isInputSafe`:
test each pattern in order from its stored `lastIndex`, returning early on
the first hit; patterns after the hit keep their stored state. -/
def checkLoop (ms : List Matcher) (sts : List Nat) (s : List Char) :
    Bool × List Nat :=
  match ms with
  | [] => (false, [])
  | m :: rest =>
    let r := testG m (sts.headD 0) s
    if r.1 then (true, r.2 :: sts.tail)
    else
      let k := checkLoop rest sts.tail s
      (k.1, r.2 :: k.2)

/-- Function `isInputSafe` with the eleven shared `lastIndex` values threaded
explicitly.  The tag check and the `javascript:|data:` check use regex
literals evaluated inside the function body, hence fresh state. -/
def isInputSafeST (sts : List Nat) (v : JSValue) : Bool × List Nat :=
  match v with
  | .str s =>
    if s.isEmpty then (true, sts)
    else
      let r := checkLoop DANGEROUS_PATTERNS sts s
      if r.1 then (false, r.2)
      else if existsMatch tagStripM s then (false, r.2)
      else if existsMatch jsDataM s then (false, r.2)
      else (true, r.2)
  | _ => (true, sts)

/-- Function `isInputSafe` as invoked on pristine regex state (all `lastIndex` 0),
i.e. the result of a first call after module load. -/
def isInputSafe (v : JSValue) : Bool :=
  (isInputSafeST (List.replicate 11 0) v).1

/-- State effect of `sanitizeInput`: for a nonempty string it runs
`replace` on every pattern, which starts each global regex at index 0 and
leaves `lastIndex` at 0; otherwise it returns before touching any regex. -/
def sanitizeInputEffect (sts : List Nat) (v : JSValue) : List Nat :=
  match v with
  | .str s => if s.isEmpty then sts else List.replicate 11 0
  | _ => sts

/-- Function `sanitizeNoteInput`: sanitize, then validate the sanitized result;
`throw new Error(...)` is modelled as `Except.error` carrying the message. -/
def sanitizeNoteInputST (sts : List Nat) (v : JSValue) :
    Except (List Char) (List Char) × List Nat :=
  let sanitized := sanitizeInputJS v
  let sts1 := sanitizeInputEffect sts v
  let r := isInputSafeST sts1 (.str sanitized)
  if r.1 then (.ok sanitized, r.2)
  else (.error (chars "Invalid input: Contains potentially dangerous content"), r.2)

/-- The seven characters that can never survive raw into `sanitizeInput`
output (every special character except `&`, which entity strings contain). -/
def bad7 (c : Char) : Bool :=
  c == '<' || c == '>' || c == Char.ofNat 34 || c == Char.ofNat 39 ||
  c == Char.ofNat 96 || c == '=' || c == '/'

/-- Every character of `replaceAllF` output is a character of the input:
global replacement by the empty string only removes characters. -/
theorem mem_replaceAllF {m : Matcher} {c : Char} :
    ∀ {f : Nat} {s : List Char}, c ∈ replaceAllF m f s → c ∈ s := by
  intro f
  induction f with
  | zero =>
    intro s h
    cases s with
    | nil => simp [replaceAllF] at h
    | cons a rest => rw [replaceAllF] at h; exact h
  | succ f ih =>
    intro s h
    cases s with
    | nil => simp [replaceAllF] at h
    | cons a rest =>
      rw [replaceAllF] at h
      rcases hm : m (a :: rest) with _ | n
      · rw [hm] at h
        rcases List.mem_cons.mp h with h | h
        · simp [h]
        · exact List.mem_cons_of_mem a (ih h)
      · rw [hm] at h
        cases n with
        | zero =>
          rcases List.mem_cons.mp h with h | h
          · simp [h]
          · exact List.mem_cons_of_mem a (ih h)
        | succ k => exact List.drop_subset _ _ (ih h)

/-- Membership version for `replaceAll`. -/
theorem mem_replaceAll {m : Matcher} {s : List Char} {c : Char}
    (h : c ∈ replaceAll m s) : c ∈ s :=
  mem_replaceAllF h

/-- If no suffix of `s` matches, global replacement leaves `s` unchanged. -/
theorem replaceAllF_eq_self {m : Matcher} :
    ∀ {f : Nat} {s : List Char}, (∀ u, u <:+ s → m u = none) →
      replaceAllF m f s = s := by
  intro f
  induction f with
  | zero => intro s _; cases s <;> rfl
  | succ f ih =>
    intro s h
    cases s with
    | nil => rfl
    | cons a rest =>
      have h0 : m (a :: rest) = none := h _ (List.suffix_refl _)
      rw [replaceAllF, h0]
      exact congrArg (a :: ·) (ih fun u hu => h u (hu.trans (List.suffix_cons a rest)))

/-- If no suffix of `s` matches, `replaceAll` is the identity. -/
theorem replaceAll_eq_self {m : Matcher} {s : List Char}
    (h : ∀ u, u <:+ s → m u = none) : replaceAll m s = s :=
  replaceAllF_eq_self h

/-- Each output character of `escapeHtml` comes from the replacement text of
some input character. -/
theorem mem_escapeHtml {c : Char} :
    ∀ {s : List Char}, c ∈ escapeHtml s → ∃ d, d ∈ s ∧ c ∈ escEnt d := by
  intro s
  induction s with
  | nil => intro h; simp [escapeHtml] at h
  | cons a rest ih =>
    intro h
    rcases List.mem_append.mp h with h | h
    · exact ⟨a, List.mem_cons_self a rest, h⟩
    · rcases ih h with ⟨d, hd, hc⟩
      exact ⟨d, List.mem_cons_of_mem a hd, hc⟩

/-- Escaping leaves text without special characters unchanged. -/
theorem escapeHtml_eq_self :
    ∀ {s : List Char}, (∀ c ∈ s, specialChar c = false) → escapeHtml s = s := by
  intro s
  induction s with
  | nil => intro _; rfl
  | cons a rest ih =>
    intro h
    have ha : specialChar a = false := h a (List.mem_cons_self a rest)
    show escEnt a ++ escapeHtml rest = a :: rest
    rw [escEnt, ha]
    simp only [Bool.false_eq_true, if_false, List.cons_append, List.nil_append]
    exact congrArg (a :: ·) (ih fun c hc => h c (List.mem_cons_of_mem a hc))

/-- No character of a replacement text emitted by `escapeHtml` is one of the
seven dangerous raw characters. -/
theorem escEnt_ok (c : Char) : (escEnt c).all (fun d => !(bad7 d)) = true := by
  by_cases h : specialChar c = true
  · have h8 : c = '&' ∨ c = '<' ∨ c = '>' ∨ c = Char.ofNat 34 ∨
        c = Char.ofNat 39 ∨ c = '/' ∨ c = Char.ofNat 96 ∨ c = '=' := by
      simpa [specialChar, or_assoc] using h
    rcases h8 with rfl | rfl | rfl | rfl | rfl | rfl | rfl | rfl <;> decide
  · have hf : specialChar c = false := by
      cases hs : specialChar c
      · rfl
      · exact absurd hs h
    rw [escEnt, hf]
    simp only [Bool.false_eq_true, if_false, List.all_cons, List.all_nil, Bool.and_true]
    have : bad7 c = false := by
      have := hf
      unfold specialChar at this
      unfold bad7
      simp only [Bool.or_eq_false_iff] at this ⊢
      exact ⟨⟨⟨⟨⟨⟨this.1.1.1.1.1.1.2, this.1.1.1.1.1.2⟩, this.1.1.1.1.2⟩,
        this.1.1.1.2⟩, this.1.2⟩, this.2⟩, this.1.1.2⟩
    simp [this]

/-- A character case-insensitively equal to a non-letter is that character. -/
theorem eq_of_ciEq_right {c d : Char} (hd : d.isAlpha = false)
    (h : ciEq c d = true) : c = d := by
  simp only [ciEq, hd, Bool.and_false, Bool.false_and, Bool.and_false,
    Bool.or_false, beq_iff_eq] at h
  exact h

/-- A successful tag-block match starts at a literal `<`. -/
theorem tagM_some {t u : List Char} {n : Nat} (h : tagM t u = some n) :
    ∃ r, u = '<' :: r := by
  unfold tagM at h
  by_cases hp : ciStarts ('<' :: t) u = true
  · cases u with
    | nil => simp [ciStarts] at hp
    | cons c r =>
      rw [ciStarts] at hp
      have hc : c = '<' :=
        eq_of_ciEq_right (by decide) (Bool.and_eq_true_iff.mp hp).1
      exact ⟨r, by rw [hc]⟩
  · rw [if_neg hp] at h
    simp at h

/-- A successful literal match starts with a character case-insensitively
equal to the first pattern character. -/
theorem litM_some {p : Char} {ps u : List Char} {n : Nat}
    (h : litM (p :: ps) u = some n) :
    ∃ c r, u = c :: r ∧ ciEq c p = true := by
  unfold litM at h
  by_cases hp : ciStarts (p :: ps) u = true
  · cases u with
    | nil => simp [ciStarts] at hp
    | cons c r =>
      rw [ciStarts] at hp
      exact ⟨c, r, rfl, (Bool.and_eq_true_iff.mp hp).1⟩
  · rw [if_neg hp] at h
    simp at h

/-- A successful event-handler match starts with a character
case-insensitively equal to `o`. -/
theorem onM_some_head {u : List Char} {n : Nat} (h : onM u = some n) :
    ∃ a b r, u = a :: b :: r ∧ ciEq a 'o' = true := by
  cases u with
  | nil => simp [onM] at h
  | cons a t =>
    cases t with
    | nil => simp [onM] at h
    | cons b r =>
      refine ⟨a, b, r, rfl, ?_⟩
      by_cases hab : (ciEq a 'o' && ciEq b 'n') = true
      · exact (Bool.and_eq_true_iff.mp hab).1
      · exfalso
        have h2 : (if (ciEq a 'o' && ciEq b 'n') = true then
            (let w := r.takeWhile isWordChar;
             if w.isEmpty then none
             else
               let r2 := r.drop w.length
               let sp := r2.takeWhile isJsSpace
               let r3 := r2.drop sp.length
               match r3 with
               | c :: _ => if c == '=' then some (2 + w.length + sp.length + 1) else none
               | [] => none)
            else none) = some n := h
        rw [if_neg hab] at h2
        simp at h2

/-- A successful event-handler match requires a literal `=` in the text. -/
theorem onM_some_eqMem {u : List Char} {n : Nat} (h : onM u = some n) :
    '=' ∈ u := by
  cases u with
  | nil => simp [onM] at h
  | cons a t =>
    cases t with
    | nil => simp [onM] at h
    | cons b r =>
      show '=' ∈ a :: b :: r
      have h2 : (if (ciEq a 'o' && ciEq b 'n') = true then
          (let w := r.takeWhile isWordChar;
           if w.isEmpty then none
           else
             let r2 := r.drop w.length
             let sp := r2.takeWhile isJsSpace
             let r3 := r2.drop sp.length
             match r3 with
             | c :: _ => if c == '=' then some (2 + w.length + sp.length + 1) else none
             | [] => none)
          else none) = some n := h
      by_cases hab : (ciEq a 'o' && ciEq b 'n') = true
      · rw [if_pos hab] at h2
        by_cases hw : (r.takeWhile isWordChar).isEmpty = true
        · rw [if_pos hw] at h2; simp at h2
        · rw [if_neg hw] at h2
          have h4 : (match (r.drop (r.takeWhile isWordChar).length).drop
                ((r.drop (r.takeWhile isWordChar).length).takeWhile isJsSpace).length with
              | c :: _ => if c == '=' then some (2 + (r.takeWhile isWordChar).length +
                  ((r.drop (r.takeWhile isWordChar).length).takeWhile isJsSpace).length + 1) else none
              | [] => none) = some n := h2
          clear h2
          rcases h3 : (r.drop (r.takeWhile isWordChar).length).drop
              ((r.drop (r.takeWhile isWordChar).length).takeWhile isJsSpace).length with _ | ⟨c, l⟩
          · rw [h3] at h4; simp at h4
          · rw [h3] at h4
            by_cases hc : (c == '=') = true
            · have hcEq : c = '=' := eq_of_beq hc
              have h6 : '=' ∈ (r.drop (r.takeWhile isWordChar).length).drop
                  ((r.drop (r.takeWhile isWordChar).length).takeWhile isJsSpace).length := by
                rw [h3, hcEq]; exact List.mem_cons_self _ _
              have h5 := List.drop_subset _ _ (List.drop_subset _ _ h6)
              exact List.mem_cons_of_mem a (List.mem_cons_of_mem b h5)
            · simp [hc] at h4
      · rw [if_neg hab] at h2; simp at h2

/-- A successful residual-tag-strip match starts at a literal `<`. -/
theorem tagStripM_some {u : List Char} {n : Nat} (h : tagStripM u = some n) :
    ∃ r, u = '<' :: r := by
  cases u with
  | nil => simp [tagStripM] at h
  | cons c r =>
    refine ⟨r, ?_⟩
    by_cases hc : (c == '<') = true
    · rw [eq_of_beq hc]
    · exfalso
      have h2 : (if (c == '<') = true then
          (let w := r.takeWhile (fun d => !(d == '>'));
           if w.length < r.length then some (w.length + 2) else none)
          else none) = some n := h
      rw [if_neg hc] at h2
      simp at h2

/-- The leftmost search succeeds exactly when some suffix matches. -/
theorem searchFrom_isSome {m : Matcher} :
    ∀ {t : List Char} {pos : Nat},
      (searchFrom m t pos).isSome = t.tails.any (fun u => (m u).isSome) := by
  intro t
  induction t with
  | nil =>
    intro pos
    rw [searchFrom]
    cases hm : m [] <;> simp [hm]
  | cons a v ih =>
    intro pos
    rw [searchFrom]
    cases hm : m (a :: v) with
    | some k => simp [hm, List.tails_cons]
    | none => simp [hm, List.tails_cons, ih]

/-- When no match exists anywhere, every suffix fails to match. -/
theorem no_suffix_match {m : Matcher} {s : List Char}
    (h : existsMatch m s = false) : ∀ u, u <:+ s → m u = none := by
  intro u hu
  cases hm : m u with
  | none => rfl
  | some k =>
    exfalso
    have htrue : s.tails.any (fun w => (m w).isSome) = true :=
      List.any_eq_true.mpr ⟨u, (List.mem_tails _ _).mpr hu, by simp [hm]⟩
    have hfalse : s.tails.any (fun w => (m w).isSome) = false := by
      rw [← searchFrom_isSome]; exact h
    rw [htrue] at hfalse
    simp at hfalse

/-- A matching suffix witnesses a global match. -/
theorem existsMatch_of_suffix {m : Matcher} {s u : List Char} {n : Nat}
    (hu : u <:+ s) (hm : m u = some n) : existsMatch m s = true := by
  unfold existsMatch
  rw [searchFrom_isSome]
  exact List.any_eq_true.mpr ⟨u, (List.mem_tails _ _).mpr hu, by simp [hm]⟩

/-- Characters of the trimmed string are characters of the original. -/
theorem mem_trim {s : List Char} {c : Char} (h : c ∈ trim s) : c ∈ s := by
  unfold trim at h
  rw [List.mem_reverse] at h
  have h1 := List.dropWhile_subset isJsSpace h
  rw [List.mem_reverse] at h1
  exact List.dropWhile_subset isJsSpace h1

/-- Trimming does not lengthen the string. -/
theorem trim_length_le (s : List Char) : (trim s).length ≤ s.length := by
  unfold trim
  rw [List.length_reverse]
  calc ((s.dropWhile isJsSpace).reverse.dropWhile isJsSpace).length
      ≤ (s.dropWhile isJsSpace).reverse.length :=
        (List.dropWhile_sublist isJsSpace).length_le
    _ = (s.dropWhile isJsSpace).length := List.length_reverse _
    _ ≤ s.length := (List.dropWhile_sublist isJsSpace).length_le

/-- After leading whitespace is dropped, the rest splits as the trimmed
core followed by the trailing whitespace. -/
theorem dropWhile_trim_decomp (s : List Char) :
    s.dropWhile isJsSpace = trim s ++
      ((s.dropWhile isJsSpace).reverse.takeWhile isJsSpace).reverse := by
  conv_lhs =>
    rw [← List.reverse_reverse (s.dropWhile isJsSpace),
      ← List.takeWhile_append_dropWhile isJsSpace (s.dropWhile isJsSpace).reverse,
      List.reverse_append]
  rfl

/-- The trimmed string sits contiguously inside the original: the original
splits as leading whitespace, the trimmed core, and trailing whitespace. -/
theorem trim_decomp (s : List Char) : ∃ a w, s = a ++ (trim s ++ w) := by
  refine ⟨s.takeWhile isJsSpace,
    ((s.dropWhile isJsSpace).reverse.takeWhile isJsSpace).reverse, ?_⟩
  conv_lhs => rw [← List.takeWhile_append_dropWhile isJsSpace s,
    dropWhile_trim_decomp s]

/-- The head surviving `dropWhile` fails the predicate. -/
theorem dropWhile_head_false {α : Type} {p : α → Bool} :
    ∀ {l : List α} {c : α} {r : List α}, l.dropWhile p = c :: r → p c = false := by
  intro l
  induction l with
  | nil => intro c r h; simp at h
  | cons a t ih =>
    intro c r h
    rw [List.dropWhile_cons] at h
    by_cases ha : p a = true
    · rw [if_pos ha] at h
      exact ih h
    · rw [if_neg ha] at h
      cases h
      cases hpa : p a
      · rfl
      · exact absurd hpa ha

/-- Dropping while is the identity when the head (if any) fails the predicate. -/
theorem dropWhile_eq_self_of {α : Type} {p : α → Bool} {l : List α}
    (h : ∀ c r, l = c :: r → p c = false) : l.dropWhile p = l := by
  cases l with
  | nil => rfl
  | cons a t =>
    rw [List.dropWhile_cons, h a t rfl]
    simp

/-- Trimming is idempotent. -/
theorem trim_trim (s : List Char) : trim (trim s) = trim s := by
  have hA : (trim s).dropWhile isJsSpace = trim s := by
    apply dropWhile_eq_self_of
    intro c r hcr
    have hd := dropWhile_trim_decomp s
    rw [hcr, List.cons_append] at hd
    exact dropWhile_head_false hd
  have hB : (trim s).reverse.dropWhile isJsSpace = (trim s).reverse := by
    apply dropWhile_eq_self_of
    intro c r hcr
    have hrev : (trim s).reverse = (s.dropWhile isJsSpace).reverse.dropWhile isJsSpace := by
      unfold trim; rw [List.reverse_reverse]
    rw [hrev] at hcr
    exact dropWhile_head_false hcr
  show (((trim s).dropWhile isJsSpace).reverse.dropWhile isJsSpace).reverse = trim s
  rw [hA, hB, List.reverse_reverse]

/-- A case-insensitive initial match extends along an appended tail. -/
theorem ciStarts_append {w : List Char} :
    ∀ {pat u : List Char}, ciStarts pat u = true → ciStarts pat (u ++ w) = true := by
  intro pat
  induction pat with
  | nil => intro u _; rfl
  | cons p ps ih =>
    intro u h
    cases u with
    | nil => simp [ciStarts] at h
    | cons c cs =>
      rw [ciStarts] at h
      show ciStarts (p :: ps) (c :: (cs ++ w)) = true
      rw [ciStarts]
      rcases Bool.and_eq_true_iff.mp h with ⟨h1, h2⟩
      rw [h1, ih h2]
      rfl

/-- Appending on the right preserves the suffix relation. -/
theorem suffix_append_right {u t w : List Char} (h : u <:+ t) :
    u ++ w <:+ t ++ w := by
  obtain ⟨v, hv⟩ := h
  exact ⟨v, by rw [← hv, List.append_assoc]⟩

/-- A literal-pattern match inside a contiguous middle piece lifts to the
enclosing string. -/
theorem existsMatch_litM_lift {pat a t w : List Char}
    (h : existsMatch (litM pat) t = true) :
    existsMatch (litM pat) (a ++ (t ++ w)) = true := by
  unfold existsMatch at h
  rw [searchFrom_isSome] at h
  obtain ⟨u, hu, hsome⟩ := List.any_eq_true.mp h
  have hu2 : u <:+ t := (List.mem_tails _ _).mp hu
  have hci : ciStarts pat u = true := by
    by_cases hh : ciStarts pat u = true
    · exact hh
    · unfold litM at hsome
      rw [if_neg hh] at hsome
      simp at hsome
  have hci2 : ciStarts pat (u ++ w) = true := ciStarts_append hci
  have hsuf : u ++ w <:+ a ++ (t ++ w) :=
    (suffix_append_right hu2).trans (List.suffix_append a (t ++ w))
  exact existsMatch_of_suffix hsuf (by unfold litM; rw [if_pos hci2])

/-- A literal pattern occurring in the trimmed string occurs in the
original string. -/
theorem existsMatch_litM_trim {pat s : List Char}
    (h : existsMatch (litM pat) (trim s) = true) :
    existsMatch (litM pat) s = true := by
  obtain ⟨a, w, hs⟩ := trim_decomp s
  rw [hs]
  exact existsMatch_litM_lift h

/-- Folding identity replacements over a pattern list is the identity. -/
theorem foldl_replaceAll_id :
    ∀ (L : List Matcher) (t : List Char), (∀ m ∈ L, replaceAll m t = t) →
      L.foldl (fun acc m => replaceAll m acc) t = t := by
  intro L
  induction L with
  | nil => intro t _; rfl
  | cons m L ih =>
    intro t h
    rw [List.foldl_cons, h m (List.mem_cons_self m L)]
    exact ih t fun m2 hm2 => h m2 (List.mem_cons_of_mem m hm2)

/-- Every character of `sanitizeInput` output avoids the seven dangerous
raw characters: pattern removal and the clamp only delete characters, and
entity escaping emits none of them. -/
theorem sanitize_mem_bad7 {v : JSValue} {c : Char}
    (h : c ∈ sanitizeInputJS v) : bad7 c = false := by
  cases v with
  | str s =>
    show bad7 c = false
    have hstr : c ∈ sanitizeInputStr s := h
    by_cases he : s.isEmpty = true
    · rw [sanitizeInputStr, if_pos he] at hstr
      simp at hstr
    · have h2 : c ∈ (if (replaceAll tagStripM (escapeHtml
          (removeDangerousPatterns (trim s)))).length > 5000 then
          (replaceAll tagStripM (escapeHtml
            (removeDangerousPatterns (trim s)))).take 5000
          else replaceAll tagStripM (escapeHtml
            (removeDangerousPatterns (trim s)))) := by
        rw [sanitizeInputStr, if_neg he] at hstr
        exact hstr
      have h3 : c ∈ replaceAll tagStripM (escapeHtml
          (removeDangerousPatterns (trim s))) := by
        by_cases hlen : (replaceAll tagStripM (escapeHtml
            (removeDangerousPatterns (trim s)))).length > 5000
        · rw [if_pos hlen] at h2
          exact List.take_subset _ _ h2
        · rw [if_neg hlen] at h2
          exact h2
      have h4 : c ∈ escapeHtml (removeDangerousPatterns (trim s)) :=
        mem_replaceAll h3
      obtain ⟨d, _, hde⟩ := mem_escapeHtml h4
      have := escEnt_ok d
      rw [List.all_eq_true] at this
      have hbc := this c hde
      cases hb : bad7 c
      · rfl
      · rw [hb] at hbc
        simp at hbc
  | nullV => simp [sanitizeInputJS] at h
  | undefinedV => simp [sanitizeInputJS] at h
  | boolean b => simp [sanitizeInputJS] at h
  | number n => simp [sanitizeInputJS] at h
  | object => simp [sanitizeInputJS] at h

/-- A case-insensitive occurrence of a pattern headed by `<` forces a raw
`<` in the text. -/
theorem lt_mem_of_containsCI {p t : List Char}
    (h : containsCI ('<' :: p) t = true) : '<' ∈ t := by
  unfold containsCI at h
  obtain ⟨u, hu, hci⟩ := List.any_eq_true.mp h
  cases u with
  | nil => simp [ciStarts] at hci
  | cons c r =>
    rw [ciStarts] at hci
    have hc : c = '<' :=
      eq_of_ciEq_right (by decide) (Bool.and_eq_true_iff.mp hci).1
    have : '<' ∈ c :: r := by rw [hc]; exact List.mem_cons_self _ _
    exact ((List.mem_tails _ _).mp hu).subset this

/-- Tag-block removal is the identity on text without a raw `<`. -/
theorem replaceAll_tagM_id {t s : List Char} (hlt : '<' ∉ s) :
    replaceAll (tagM t) s = s := by
  apply replaceAll_eq_self
  intro u hu
  cases hm : tagM t u with
  | none => rfl
  | some k =>
    exfalso
    obtain ⟨r, rfl⟩ := tagM_some hm
    exact hlt (hu.subset (List.mem_cons_self _ _))

/-- Residual tag stripping is the identity on text without a raw `<`. -/
theorem replaceAll_tagStripM_id {s : List Char} (hlt : '<' ∉ s) :
    replaceAll tagStripM s = s := by
  apply replaceAll_eq_self
  intro u hu
  cases hm : tagStripM u with
  | none => rfl
  | some k =>
    exfalso
    obtain ⟨r, rfl⟩ := tagStripM_some hm
    exact hlt (hu.subset (List.mem_cons_self _ _))

/-- Event-handler removal is the identity on text without `=`. -/
theorem replaceAll_onM_id {s : List Char} (heq : '=' ∉ s) :
    replaceAll onM s = s := by
  apply replaceAll_eq_self
  intro u hu
  cases hm : onM u with
  | none => rfl
  | some k => exact absurd (hu.subset (onM_some_eqMem hm)) heq

/-- Literal removal is the identity when the pattern occurs nowhere. -/
theorem replaceAll_litM_id {pat s : List Char}
    (h : existsMatch (litM pat) s = false) : replaceAll (litM pat) s = s :=
  replaceAll_eq_self (no_suffix_match h)

/-- Literal removal is the identity when no character of the text
case-insensitively equals the first pattern character. -/
theorem replaceAll_litM_head_id {p : Char} {ps s : List Char}
    (h : ∀ c ∈ s, ciEq c p = false) : replaceAll (litM (p :: ps)) s = s := by
  apply replaceAll_eq_self
  intro u hu
  cases hm : litM (p :: ps) u with
  | none => rfl
  | some k =>
    exfalso
    obtain ⟨c, r, rfl, hci⟩ := litM_some hm
    have hcs : c ∈ s := hu.subset (List.mem_cons_self _ _)
    rw [h c hcs] at hci
    simp at hci

/-- Trimming is the identity on text without whitespace characters. -/
theorem trim_of_no_ws {s : List Char} (h : ∀ c ∈ s, isJsSpace c = false) :
    trim s = s := by
  have h1 : s.dropWhile isJsSpace = s :=
    dropWhile_eq_self_of (fun c r hcr => h c (by rw [hcr]; exact List.mem_cons_self _ _))
  have h2 : s.reverse.dropWhile isJsSpace = s.reverse :=
    dropWhile_eq_self_of (fun c r hcr => h c (List.mem_reverse.mp
      (by rw [hcr]; exact List.mem_cons_self _ _)))
  unfold trim
  rw [h1, h2, List.reverse_reverse]

/-- The full dangerous-pattern removal pass is the identity on text with no
raw `<` or `=` and no occurrence of the three scheme literals. -/
theorem removeDangerous_id_clean {s : List Char}
    (hlt : '<' ∉ s) (heqn : '=' ∉ s)
    (hjs : existsMatch (litM (chars "javascript:")) s = false)
    (hvb : existsMatch (litM (chars "vbscript:")) s = false)
    (hda : existsMatch (litM (chars "data:")) s = false) :
    removeDangerousPatterns s = s := by
  unfold removeDangerousPatterns
  apply foldl_replaceAll_id
  intro m hm
  simp only [DANGEROUS_PATTERNS, List.mem_cons, List.not_mem_nil, or_false] at hm
  rcases hm with rfl | rfl | rfl | rfl | rfl | rfl | rfl | rfl | rfl | rfl | rfl
  · exact replaceAll_tagM_id hlt
  · exact replaceAll_tagM_id hlt
  · exact replaceAll_tagM_id hlt
  · exact replaceAll_tagM_id hlt
  · exact replaceAll_tagM_id hlt
  · exact replaceAll_tagM_id hlt
  · exact replaceAll_tagM_id hlt
  · exact replaceAll_litM_id hjs
  · exact replaceAll_litM_id hvb
  · exact replaceAll_litM_id hda
  · exact replaceAll_onM_id heqn

/-- Claim C5: for every string of length at most 5000 that contains none of
the 8 special characters and matches none of the dangerous patterns,
`sanitizeInput` is the identity on its trimmed form. -/
theorem C5_safe_identity (s : List Char)
    (h1 : s.length ≤ 5000)
    (h2 : s.all (fun c => !(specialChar c)) = true)
    (h3 : DANGEROUS_PATTERNS.all (fun m => !(existsMatch m s)) = true) :
    sanitizeInputStr (trim s) = trim s := by
  rw [List.all_eq_true] at h2 h3
  have hspec : ∀ c ∈ trim s, specialChar c = false := by
    intro c hc
    have hb := h2 c (mem_trim hc)
    cases hx : specialChar c
    · rfl
    · rw [hx] at hb; simp at hb
  have hlt : '<' ∉ trim s := by
    intro hmem
    exact absurd (hspec '<' hmem) (by decide)
  have heqn : '=' ∉ trim s := by
    intro hmem
    exact absurd (hspec '=' hmem) (by decide)
  have hOnS : ∀ pat : List Char, litM pat ∈ DANGEROUS_PATTERNS →
      existsMatch (litM pat) s = false := by
    intro pat hmem
    have hb := h3 _ hmem
    cases hx : existsMatch (litM pat) s
    · rfl
    · rw [hx] at hb; simp at hb
  have hjs2 : existsMatch (litM (chars "javascript:")) (trim s) = false := by
    cases hx : existsMatch (litM (chars "javascript:")) (trim s)
    · rfl
    · have hlift := existsMatch_litM_trim hx
      rw [hOnS _ (by simp [DANGEROUS_PATTERNS])] at hlift
      simp at hlift
  have hvb2 : existsMatch (litM (chars "vbscript:")) (trim s) = false := by
    cases hx : existsMatch (litM (chars "vbscript:")) (trim s)
    · rfl
    · have hlift := existsMatch_litM_trim hx
      rw [hOnS _ (by simp [DANGEROUS_PATTERNS])] at hlift
      simp at hlift
  have hda2 : existsMatch (litM (chars "data:")) (trim s) = false := by
    cases hx : existsMatch (litM (chars "data:")) (trim s)
    · rfl
    · have hlift := existsMatch_litM_trim hx
      rw [hOnS _ (by simp [DANGEROUS_PATTERNS])] at hlift
      simp at hlift
  have hrem : removeDangerousPatterns (trim s) = trim s :=
    removeDangerous_id_clean hlt heqn hjs2 hvb2 hda2
  by_cases hnil : (trim s).isEmpty = true
  · rw [sanitizeInputStr, if_pos hnil]
    rw [List.isEmpty_iff] at hnil
    exact hnil.symm
  · have hlen : (trim s).length ≤ 5000 := le_trans (trim_length_le s) h1
    have hpipe : replaceAll tagStripM (escapeHtml
        (removeDangerousPatterns (trim (trim s)))) = trim s := by
      rw [trim_trim, hrem, escapeHtml_eq_self hspec, replaceAll_tagStripM_id hlt]
    rw [sanitizeInputStr, if_neg hnil]
    show (if (replaceAll tagStripM (escapeHtml
        (removeDangerousPatterns (trim (trim s))))).length > 5000
      then (replaceAll tagStripM (escapeHtml
        (removeDangerousPatterns (trim (trim s))))).take 5000
      else replaceAll tagStripM (escapeHtml
        (removeDangerousPatterns (trim (trim s))))) = trim s
    rw [hpipe, if_neg (by omega)]

/-- Witness for C5 at the concrete input `"hello world"`. -/
theorem C5_safe_identity_witness :
    sanitizeInputStr (trim (chars "hello world")) = trim (chars "hello world") :=
  C5_safe_identity (chars "hello world") (by decide) (by decide) (by decide)

/-- The final clamp of `sanitizeInput` is extensionally `take 5000` of the
intermediate sanitized text. -/
theorem sanitizeInputStr_eq_take (s : List Char) :
    sanitizeInputStr s = (beforeClamp s).take 5000 := by
  by_cases he : s.isEmpty = true
  · rw [sanitizeInputStr, beforeClamp, if_pos he, if_pos he]
    rfl
  · rw [sanitizeInputStr, beforeClamp, if_neg he, if_neg he]
    show (if (replaceAll tagStripM (escapeHtml
        (removeDangerousPatterns (trim s)))).length > 5000
      then (replaceAll tagStripM (escapeHtml
        (removeDangerousPatterns (trim s)))).take 5000
      else replaceAll tagStripM (escapeHtml
        (removeDangerousPatterns (trim s)))) =
      (replaceAll tagStripM (escapeHtml
        (removeDangerousPatterns (trim s)))).take 5000
    by_cases hlen : (replaceAll tagStripM (escapeHtml
        (removeDangerousPatterns (trim s)))).length > 5000
    · rw [if_pos hlen]
    · rw [if_neg hlen, List.take_of_length_le (by omega)]

/-- Claim C6: the output of `sanitizeInput` never exceeds 5000 code units;
the clamp keeps exactly the first 5000 units of the intermediate sanitized
text; and 6000 repetitions of `a` sanitize to exactly 5000 repetitions. -/
theorem C6_length_clamp :
    (∀ v : JSValue, (sanitizeInputJS v).length ≤ 5000) ∧
    (∀ s : List Char, sanitizeInputStr s = (beforeClamp s).take 5000) ∧
    sanitizeInputStr (List.replicate 6000 'a') = List.replicate 5000 'a' := by
  refine ⟨?_, sanitizeInputStr_eq_take, ?_⟩
  · intro v
    cases v with
    | str s =>
      show (sanitizeInputStr s).length ≤ 5000
      rw [sanitizeInputStr_eq_take, List.length_take]
      exact min_le_left _ _
    | nullV => simp [sanitizeInputJS]
    | undefinedV => simp [sanitizeInputJS]
    | boolean b => simp [sanitizeInputJS]
    | number n => simp [sanitizeInputJS]
    | object => simp [sanitizeInputJS]
  · have hall : ∀ c ∈ List.replicate 6000 'a', c = 'a' :=
      fun c hc => List.eq_of_mem_replicate hc
    have htrim : trim (List.replicate 6000 'a') = List.replicate 6000 'a' :=
      trim_of_no_ws (fun c hc => by rw [hall c hc]; decide)
    have hlt : '<' ∉ List.replicate 6000 'a' := by
      intro hc
      exact absurd (hall _ hc) (by decide)
    have heqn : '=' ∉ List.replicate 6000 'a' := by
      intro hc
      exact absurd (hall _ hc) (by decide)
    have hrem : removeDangerousPatterns (List.replicate 6000 'a') =
        List.replicate 6000 'a' := by
      unfold removeDangerousPatterns
      apply foldl_replaceAll_id
      intro m hm
      simp only [DANGEROUS_PATTERNS, List.mem_cons, List.not_mem_nil, or_false] at hm
      rcases hm with rfl | rfl | rfl | rfl | rfl | rfl | rfl | rfl | rfl | rfl | rfl
      · exact replaceAll_tagM_id hlt
      · exact replaceAll_tagM_id hlt
      · exact replaceAll_tagM_id hlt
      · exact replaceAll_tagM_id hlt
      · exact replaceAll_tagM_id hlt
      · exact replaceAll_tagM_id hlt
      · exact replaceAll_tagM_id hlt
      · exact replaceAll_litM_head_id (fun c hc => by rw [hall c hc]; decide)
      · exact replaceAll_litM_head_id (fun c hc => by rw [hall c hc]; decide)
      · exact replaceAll_litM_head_id (fun c hc => by rw [hall c hc]; decide)
      · exact replaceAll_onM_id heqn
    have hesc : escapeHtml (List.replicate 6000 'a') = List.replicate 6000 'a' :=
      escapeHtml_eq_self (fun c hc => by rw [hall c hc]; decide)
    have hstrip : replaceAll tagStripM (List.replicate 6000 'a') =
        List.replicate 6000 'a' := replaceAll_tagStripM_id hlt
    have hne : ¬((List.replicate 6000 'a').isEmpty = true) := by
      rw [List.isEmpty_iff_length_eq_zero, List.length_replicate]
      omega
    rw [sanitizeInputStr, if_neg hne]
    show (if (replaceAll tagStripM (escapeHtml
        (removeDangerousPatterns (trim (List.replicate 6000 'a'))))).length > 5000
      then (replaceAll tagStripM (escapeHtml
        (removeDangerousPatterns (trim (List.replicate 6000 'a'))))).take 5000
      else replaceAll tagStripM (escapeHtml
        (removeDangerousPatterns (trim (List.replicate 6000 'a'))))) =
      List.replicate 5000 'a'
    rw [htrim, hrem, hesc, hstrip]
    rw [if_pos (by rw [List.length_replicate]; omega)]
    rw [List.take_replicate, Nat.min_eq_left (by omega)]

/-- Claim C1 (amended): the output of `sanitizeInput` never contains the
substrings `<script` or `<iframe`, compared case-insensitively — indeed it
contains no raw `<` at all.  The analogous guarantee for `javascript:` and
`vbscript:` fails; see the counterexample below. -/
theorem C1_no_script_iframe (s : List Char) :
    containsCI (chars "<script") (sanitizeInputStr s) = false ∧
    containsCI (chars "<iframe") (sanitizeInputStr s) = false := by
  have hlt : '<' ∉ sanitizeInputStr s := by
    intro hmem
    have hb : bad7 '<' = false :=
      sanitize_mem_bad7 (show '<' ∈ sanitizeInputJS (JSValue.str s) from hmem)
    exact absurd hb (by decide)
  constructor
  · cases hx : containsCI (chars "<script") (sanitizeInputStr s)
    · rfl
    · exact absurd (lt_mem_of_containsCI hx) hlt
  · cases hx : containsCI (chars "<iframe") (sanitizeInputStr s)
    · rfl
    · exact absurd (lt_mem_of_containsCI hx) hlt

/-- Counterexample to claim C1 as stated: one global-replace pass over
`"jjavascript:avascript:"` removes the single embedded occurrence of
`javascript:` and thereby reassembles `javascript:` from the remaining
pieces, so the output contains the forbidden substring. -/
theorem C1_reassembly_counterexample :
    containsCI (chars "javascript:")
      (sanitizeInputStr (chars "jjavascript:avascript:")) = true := by decide

/-- Claim C9: no character of `sanitizeInput` output is a raw occurrence of
`<`, `>`, `"`, `'`, backtick, `=` or `/`. -/
theorem C9_no_raw_specials (v : JSValue) :
    (sanitizeInputJS v).all (fun c => !(bad7 c)) = true := by
  rw [List.all_eq_true]
  intro c hc
  rw [sanitize_mem_bad7 hc]
  rfl

/-- Claim C4: `sanitizeInput` on `"<b>Hello</b>"` returns exactly the
entity-escaped text, not `"Hello"`. -/
theorem C4_bold_hello :
    sanitizeInputStr (chars "<b>Hello</b>") =
      chars "&lt;b&gt;Hello&lt;&#x2F;b&gt;" := by decide

/-- Claim C7: `sanitizeInput` is total — it is embedded as a total function
returning a string for every JavaScript value — and it returns the empty
string on the empty string, `null`, `undefined`, and every non-string
value. -/
theorem C7_empty_equivalents :
    sanitizeInputJS (JSValue.str []) = [] ∧
    sanitizeInputJS JSValue.nullV = [] ∧
    sanitizeInputJS JSValue.undefinedV = [] ∧
    (∀ b, sanitizeInputJS (JSValue.boolean b) = []) ∧
    (∀ n, sanitizeInputJS (JSValue.number n) = []) ∧
    sanitizeInputJS JSValue.object = [] :=
  ⟨rfl, rfl, rfl, fun _ => rfl, fun _ => rfl, rfl⟩

/-- Claim C8: `isInputSafe` returns `true` on the empty string and on
`null` (from any regex state), and returns `false` on
`"<script>alert(1)</script>"` from any regex state (the fresh tag-shaped
check catches it even if the shared patterns are desynchronised). -/
theorem C8_values :
    (∀ sts, (isInputSafeST sts (JSValue.str [])).1 = true) ∧
    (∀ sts, (isInputSafeST sts JSValue.nullV).1 = true) ∧
    (∀ sts, (isInputSafeST sts (JSValue.str
      (chars "<script>alert(1)</script>"))).1 = false) := by
  refine ⟨fun sts => rfl, fun sts => rfl, fun sts => ?_⟩
  have htag : existsMatch tagStripM (chars "<script>alert(1)</script>") = true := by
    decide
  show (if (chars "<script>alert(1)</script>").isEmpty then ((true, sts) : Bool × List Nat)
    else
      if (checkLoop DANGEROUS_PATTERNS sts (chars "<script>alert(1)</script>")).1 then
        (false, (checkLoop DANGEROUS_PATTERNS sts (chars "<script>alert(1)</script>")).2)
      else if existsMatch tagStripM (chars "<script>alert(1)</script>") then
        (false, (checkLoop DANGEROUS_PATTERNS sts (chars "<script>alert(1)</script>")).2)
      else if existsMatch jsDataM (chars "<script>alert(1)</script>") then
        (false, (checkLoop DANGEROUS_PATTERNS sts (chars "<script>alert(1)</script>")).2)
      else (true, (checkLoop DANGEROUS_PATTERNS sts
        (chars "<script>alert(1)</script>")).2)).1 = false
  rw [if_neg (by decide), htag]
  by_cases hc : (checkLoop DANGEROUS_PATTERNS sts
      (chars "<script>alert(1)</script>")).1 = true
  · rw [if_pos hc]
  · rw [if_neg hc]
    rw [if_pos rfl]

/-- The first component of `sanitizeNoteInput`, with the validity test made
explicit. -/
theorem noteST_fst (sts : List Nat) (v : JSValue) :
    (sanitizeNoteInputST sts v).1 =
      if (isInputSafeST (sanitizeInputEffect sts v)
          (JSValue.str (sanitizeInputJS v))).1
      then Except.ok (sanitizeInputJS v)
      else Except.error
        (chars "Invalid input: Contains potentially dangerous content") := by
  show (if (isInputSafeST (sanitizeInputEffect sts v)
        (JSValue.str (sanitizeInputJS v))).1 then
      ((Except.ok (sanitizeInputJS v) :
          Except (List Char) (List Char)),
        (isInputSafeST (sanitizeInputEffect sts v)
          (JSValue.str (sanitizeInputJS v))).2)
    else
      (Except.error
        (chars "Invalid input: Contains potentially dangerous content"),
        (isInputSafeST (sanitizeInputEffect sts v)
          (JSValue.str (sanitizeInputJS v))).2)).1 = _
  by_cases hb : (isInputSafeST (sanitizeInputEffect sts v)
      (JSValue.str (sanitizeInputJS v))).1 = true
  · rw [if_pos hb, if_pos hb]
  · rw [if_neg hb, if_neg hb]

/-- Claim C2: from any regex state, `sanitizeNoteInput` sanitizes the input
and then validates the sanitized result: it fails with exactly the fixed
message when `isInputSafe` (as invoked, i.e. on the freshly reset pattern
state) judges the sanitized text unsafe, and otherwise returns the
sanitized text unchanged. -/
theorem C2_note_contract (sts : List Nat) (v : JSValue) :
    (sanitizeNoteInputST sts v).1 =
      if isInputSafe (JSValue.str (sanitizeInputJS v))
      then Except.ok (sanitizeInputJS v)
      else Except.error
        (chars "Invalid input: Contains potentially dangerous content") := by
  rw [noteST_fst]
  cases v with
  | str s =>
    by_cases he : s.isEmpty = true
    · have hout : sanitizeInputJS (JSValue.str s) = [] := by
        show sanitizeInputStr s = []
        rw [sanitizeInputStr, if_pos he]
      have heff : sanitizeInputEffect sts (JSValue.str s) = sts := by
        show (if s.isEmpty then sts else List.replicate 11 0) = sts
        rw [if_pos he]
      rw [hout, heff]
      rfl
    · have heff : sanitizeInputEffect sts (JSValue.str s) = List.replicate 11 0 := by
        show (if s.isEmpty then sts else List.replicate 11 0) = List.replicate 11 0
        rw [if_neg he]
      rw [heff]
      rfl
  | nullV => rfl
  | undefinedV => rfl
  | boolean b => rfl
  | number n => rfl
  | object => rfl

/-- Claim C10: the failure branch of `sanitizeNoteInput` is reachable: on
`"dadata:ta:"` the single global-replace pass reassembles `data:` in the
sanitized output, `isInputSafe` rejects that output, and
`sanitizeNoteInput` therefore fails with the fixed message. -/
theorem C10_note_failure_reachable :
    sanitizeInputStr (chars "dadata:ta:") = chars "data:" ∧
    isInputSafe (JSValue.str (chars "data:")) = false ∧
    (sanitizeNoteInputST (List.replicate 11 0)
        (JSValue.str (chars "dadata:ta:"))).1 =
      Except.error
        (chars "Invalid input: Contains potentially dangerous content") := by
  refine ⟨by decide, by decide, ?_⟩
  rfl

/-- Claim C3 (refuted by the code): the shared `/g` regexes keep their
`lastIndex` between calls of `RegExp.test`, so two successive invocations
of `isInputSafe` on `"vbscript:x"` return `false` and then `true`: the
`vbscript:` pattern resumes its search at index 9 on the second call and
misses, and no other check catches this input. -/
theorem C3_regex_state_bug :
    (isInputSafeST (List.replicate 11 0)
      (JSValue.str (chars "vbscript:x"))).1 = false ∧
    (isInputSafeST
      (isInputSafeST (List.replicate 11 0)
        (JSValue.str (chars "vbscript:x"))).2
      (JSValue.str (chars "vbscript:x"))).1 = true := by
  exact ⟨by decide, by decide⟩
